import Mathlib

/-!
Formal model of `examples/bins/plot_ah_found.py` (kuibit repository).

The script parses CLI arguments, opens a simulation directory, and for each
requested apparent-horizon index that the simulation makes available it emits
one matplotlib scatter series of (detection time, horizon index) points, then
sets axis labels, y-limits, y-ticks, and saves the figure.

Shallow embedding choices:
* parsed CLI arguments become the `Args` structure (one field per option the
  script reads);
* the `SimDir(...).horizons` collaborator becomes the `SimHorizons` structure:
  the list of available apparent-horizon indices and, per index, the detection
  time series `get_apparent_horizon(ah).ah.cctk_iteration.t`; time values are
  opaque data the script only forwards to `plt.scatter`, modelled as integers;
* each `plt.scatter` call becomes a `ScatterSeries` value, and the final
  matplotlib figure state a `Figure` value; `save_from_dir_filename_ext`
  becomes the `SavedFile` record (directory, name, extension, figure content);
* Python `str` on integers is modelled by `str` below, a decimal printer;
  Python `min`/`max` on a list by `pyMin`/`pyMax` (`ValueError` on the empty
  list becomes `none`, making the whole run return `none`);
* `logger.debug` calls become `LogRecord` values; with `--verbose` absent the
  logger stays above debug level and the emitted record list is empty.
-/

namespace PlotAhFound

/-- Decimal digits of a natural number, least-significant first, with explicit
fuel so the recursion is structural and the kernel can evaluate it.
For `n ≤ fuel` this is the full digit list of `n` (empty for `0`). -/
def toDigitsRev : Nat → Nat → List Nat
  | _, 0 => []
  | 0, _ + 1 => []
  | fuel + 1, n + 1 => (n + 1) % 10 :: toDigitsRev fuel ((n + 1) / 10)

/-- Value of a little-endian base-10 digit list; inverse of `toDigitsRev`. -/
def ofDigitsRev : List Nat → Nat
  | [] => 0
  | d :: ds => d + 10 * ofDigitsRev ds

/-- Characters of Python `str(n)` for a natural number `n`: its decimal
digits, most significant first, and `"0"` for zero. -/
def natChars (n : Nat) : List Char :=
  if n = 0 then ['0'] else (toDigitsRev n n).reverse.map Nat.digitChar

/-- Characters of Python `str(h)` for an integer `h`: a minus sign followed
by the decimal digits when `h < 0`, the decimal digits otherwise. -/
def strChars : Int → List Char
  | .ofNat m => natChars m
  | .negSucc m => '-' :: natChars (m + 1)

/-- Python `str(h)` for an integer `h`: its decimal representation. -/
def str (h : Int) : String := (strChars h).asString

/-- The CLI arguments the script reads: `args.horizons` (required, one or
more integers), the figure options added by `kah.add_figure_to_parser`
(`figname` override, `outdir`, `fig_extension`), `datadir`,
`ignore_symlinks`, and `verbose`. -/
structure Args where
  horizons : List Int
  figname : Option String
  outdir : String
  fig_ext : String
  datadir : String
  ignore_symlinks : Bool
  verbose : Bool

/-- The simulation-data provider `SimDir(args.datadir, ...).horizons`:
the available apparent-horizon indices, and per index the detection time
series `get_apparent_horizon(ah).ah.cctk_iteration.t`. -/
structure SimHorizons where
  available_apparent_horizons : List Int
  time_found : Int → List Int

/-- One `plt.scatter(time_found, ah_num, marker="o", s=0.1)` call:
x-values, y-values, marker style, and marker size. -/
structure ScatterSeries where
  x : List Int
  y : List Int
  marker : String
  s : Rat
deriving DecidableEq

/-- Modelled from the spec: `get_figname` (from `kuibit.visualize_matplotlib`,
which is not among the sampled sources) returns the user-supplied figure-name
override when one is given, else the supplied default name. -/
def get_figname (override : Option String) (default : String) : String :=
  override.getD default

/-- Lines 60-61 of the script: `horizons = "_".join([str(h) for h in
args.horizons])` and `figname = get_figname(args, default=f"ah_{horizons}_found")`. -/
def figname (args : Args) : String :=
  get_figname args.figname
    ("ah_" ++ String.intercalate "_" (args.horizons.map str) ++ "_found")

/-- The marker size `s=0.1` of the scatter call, as the exact rational
`1/10` (written as an explicit numerator/denominator pair so that the kernel
can evaluate comparisons on it). -/
def markerSize : Rat := ⟨1, 10, by decide, by decide⟩

/-- Lines 77-82: read `time_found` for horizon `ah`, build the constant list
`ah_num = [ah] * len(time_found)`, and scatter with marker `"o"`, size `0.1`. -/
def scatterFor (sim_hor : SimHorizons) (ah : Int) : ScatterSeries :=
  let time_found := sim_hor.time_found ah
  let ah_num := List.replicate time_found.length ah
  { x := time_found, y := ah_num, marker := "o", s := markerSize }

/-- Lines 73-82: the per-horizon loop. For each `ah` in `args.horizons`, in
order, a scatter series is emitted iff `ah` is among the available apparent
horizons; otherwise the iteration does nothing (besides a debug log line). -/
def emitSeries (sim_hor : SimHorizons) : List Int → List ScatterSeries
  | [] => []
  | ah :: rest =>
      if ah ∈ sim_hor.available_apparent_horizons then
        scatterFor sim_hor ah :: emitSeries sim_hor rest
      else
        emitSeries sim_hor rest

/-- Python `min` on a list of integers: `none` on `[]` (where Python raises
`ValueError`), else the least element. -/
def pyMin : List Int → Option Int
  | [] => none
  | x :: xs => some (xs.foldl min x)

/-- Python `max` on a list of integers: `none` on `[]` (where Python raises
`ValueError`), else the greatest element. -/
def pyMax : List Int → Option Int
  | [] => none
  | x :: xs => some (xs.foldl max x)

/-- The matplotlib figure state the script builds before saving: the scatter
series in emission order, both axis labels, the y-limits, and the y-ticks. -/
structure Figure where
  series : List ScatterSeries
  xlabel : String
  ylabel : String
  ylim : Int × Int
  yticks : List Int
deriving DecidableEq

/-- The output of `save_from_dir_filename_ext(args.outdir, figname,
args.fig_extension)`: one image file `<outdir>/<name>.<fig_ext>` whose
content renders `figure`. -/
structure SavedFile where
  outdir : String
  name : String
  fig_ext : String
  figure : Figure
deriving DecidableEq

/-- The whole run (lines 60-97): compute the figure name from the arguments,
emit one scatter series per requested available horizon, set the labels,
`plt.ylim(min(args.horizons) - 1, max(args.horizons) + 1)` and
`plt.yticks(args.horizons)`, and save. `none` models the uncaught
`ValueError` from `min` on an empty horizon list (argparse's `nargs="+"`
prevents it in practice). -/
def run (args : Args) (sim_hor : SimHorizons) : Option SavedFile :=
  let fname := figname args
  let series := emitSeries sim_hor args.horizons
  match pyMin args.horizons, pyMax args.horizons with
  | some mn, some mx =>
      some { outdir := args.outdir, name := fname, fig_ext := args.fig_ext,
             figure := { series := series, xlabel := "Time",
                         ylabel := "Apparent horizon",
                         ylim := (mn - 1, mx + 1), yticks := args.horizons } }
  | _, _ => none

/-- Python logging levels relevant to the script. -/
inductive LogLevel
  | debug
  | info
  | warning
  | error
deriving DecidableEq

/-- The messages the script logs, one constructor per `logger.debug` call. -/
inductive LogMsg
  | fignameIs (s : String)
  | preparedSimDir
  | availableHorizons (hs : List Int)
  | readingHorizon (ah : Int)
  | plotting
  | plotted
  | saving
  | done
deriving DecidableEq

/-- One emitted log record: its level and its message. -/
structure LogRecord where
  level : LogLevel
  msg : LogMsg
deriving DecidableEq

/-- Debug records of the per-horizon loop: `Reading horizon {ah}` for each
requested available horizon, nothing for the others. -/
def loopLogs (sim_hor : SimHorizons) : List Int → List LogRecord
  | [] => []
  | ah :: rest =>
      if ah ∈ sim_hor.available_apparent_horizons then
        ⟨.debug, .readingHorizon ah⟩ :: loopLogs sim_hor rest
      else
        loopLogs sim_hor rest

/-- The log records a completed run surfaces. Every call in the script is
`logger.debug`; the logger is set to debug level only under `args.verbose`,
so without it the records are suppressed by the default warning level. -/
def emittedLogs (args : Args) (sim_hor : SimHorizons) : List LogRecord :=
  if args.verbose then
    ⟨.debug, .fignameIs (figname args)⟩ ::
    ⟨.debug, .preparedSimDir⟩ ::
    ⟨.debug, .availableHorizons sim_hor.available_apparent_horizons⟩ ::
    (loopLogs sim_hor args.horizons ++
      [⟨.debug, .plotting⟩, ⟨.debug, .plotted⟩,
       ⟨.debug, .saving⟩, ⟨.debug, .done⟩])
  else []

/-- Concrete arguments: horizons `[2, 5]`, no figure-name override. -/
def args0 : Args :=
  { horizons := [2, 5], figname := none, outdir := "out", fig_ext := "png",
    datadir := "data", ignore_symlinks := false, verbose := false }

/-- Concrete provider: horizons 1, 2, 3 available; horizon 2 detected at
times 0, 1, 2; the others never detected. -/
def sim0 : SimHorizons :=
  { available_apparent_horizons := [1, 2, 3],
    time_found := fun ah => if ah = 2 then [0, 1, 2] else [] }

/-- The file `run args0 sim0` writes. -/
def out0 : SavedFile :=
  { outdir := "out", name := "ah_2_5_found", fig_ext := "png",
    figure := { series := [{ x := [0, 1, 2], y := [2, 2, 2],
                             marker := "o", s := markerSize }],
                xlabel := "Time", ylabel := "Apparent horizon",
                ylim := (1, 6), yticks := [2, 5] } }

/-- Concrete arguments requesting horizons `[1, 2]`; horizon 1 is available in
`sim0` but never detected. -/
def args1 : Args := { args0 with horizons := [1, 2] }

/-- Concrete arguments requesting horizon 2 twice: `[2, 5, 2]`. -/
def args2 : Args := { args0 with horizons := [2, 5, 2] }

/-- The file `run args2 sim0` writes: two identical series for horizon 2. -/
def out2 : SavedFile :=
  { outdir := "out", name := "ah_2_5_2_found", fig_ext := "png",
    figure := { series := [{ x := [0, 1, 2], y := [2, 2, 2],
                             marker := "o", s := markerSize },
                           { x := [0, 1, 2], y := [2, 2, 2],
                             marker := "o", s := markerSize }],
                xlabel := "Time", ylabel := "Apparent horizon",
                ylim := (1, 6), yticks := [2, 5, 2] } }

/-! Sanity evaluations of the model on the concrete data. -/

theorem run_args0_eval : run args0 sim0 = some out0 := by decide

theorem str_eval_pos : str 123 = "123" := by decide

theorem str_eval_neg : str (-45) = "-45" := by decide

theorem str_eval_zero : str 0 = "0" := by decide

theorem figname_args0_eval : figname args0 = "ah_2_5_found" := by decide

/-! Supporting lemmas: `str` prints distinct integers to distinct strings. -/

theorem ofDigitsRev_toDigitsRev : ∀ fuel n, n ≤ fuel →
    ofDigitsRev (toDigitsRev fuel n) = n := by
  intro fuel
  induction fuel with
  | zero =>
      intro n hn
      have h0 : n = 0 := Nat.le_zero.mp hn
      subst h0
      rfl
  | succ f ih =>
      intro n hn
      match n with
      | 0 => rfl
      | m + 1 =>
          have hdiv : (m + 1) / 10 ≤ f := by
            have h1 : (m + 1) / 10 < m + 1 := Nat.div_lt_self (Nat.succ_pos m) (by omega)
            omega
          simp only [toDigitsRev, ofDigitsRev, ih _ hdiv]
          omega

theorem toDigitsRev_lt_ten : ∀ fuel n, ∀ d ∈ toDigitsRev fuel n, d < 10 := by
  intro fuel
  induction fuel with
  | zero =>
      intro n d hd
      cases n <;> simp [toDigitsRev] at hd
  | succ f ih =>
      intro n d hd
      match n with
      | 0 => simp [toDigitsRev] at hd
      | m + 1 =>
          simp only [toDigitsRev, List.mem_cons] at hd
          rcases hd with h | h
          · subst h
            exact Nat.mod_lt _ (by omega)
          · exact ih _ _ h

theorem toDigitsRev_self_inj {a b : Nat} (h : toDigitsRev a a = toDigitsRev b b) :
    a = b := by
  have h2 := congrArg ofDigitsRev h
  rwa [ofDigitsRev_toDigitsRev a a le_rfl, ofDigitsRev_toDigitsRev b b le_rfl] at h2

theorem digitChar_inj_lt : ∀ a < 10, ∀ b < 10,
    Nat.digitChar a = Nat.digitChar b → a = b := by decide

theorem digitChar_ne_minus : ∀ d < 10, Nat.digitChar d ≠ '-' := by decide

theorem map_digitChar_inj : ∀ l1 l2 : List Nat, (∀ d ∈ l1, d < 10) →
    (∀ d ∈ l2, d < 10) → l1.map Nat.digitChar = l2.map Nat.digitChar → l1 = l2 := by
  intro l1
  induction l1 with
  | nil =>
      intro l2 _ _ h
      cases l2 with
      | nil => rfl
      | cons b t2 => simp at h
  | cons a t ih =>
      intro l2 h1 h2 h
      cases l2 with
      | nil => simp at h
      | cons b t2 =>
          simp only [List.map_cons, List.cons.injEq] at h
          have ha : a < 10 := h1 a (List.mem_cons_self a t)
          have hb : b < 10 := h2 b (List.mem_cons_self b t2)
          have hab : a = b := digitChar_inj_lt a ha b hb h.1
          subst hab
          have ht : t = t2 :=
            ih t2 (fun d hd => h1 d (List.mem_cons_of_mem a hd))
              (fun d hd => h2 d (List.mem_cons_of_mem a hd)) h.2
          rw [ht]

theorem natChars_ne_minus (n : Nat) : ∀ c ∈ natChars n, c ≠ '-' := by
  intro c hc
  unfold natChars at hc
  by_cases hn : n = 0
  · simp [hn] at hc
    subst hc
    decide
  · simp only [hn, if_false, List.mem_map, List.mem_reverse] at hc
    obtain ⟨d, hd, rfl⟩ := hc
    exact digitChar_ne_minus d (toDigitsRev_lt_ten n n d hd)

theorem natChars_injective : Function.Injective natChars := by
  intro a b h
  unfold natChars at h
  by_cases ha : a = 0 <;> by_cases hb : b = 0
  · omega
  · exfalso
    simp only [ha, if_true, hb, if_false] at h
    have h0 : ([0] : List Nat).map Nat.digitChar = ['0'] := rfl
    rw [← h0] at h
    have hrev : ([0] : List Nat) = (toDigitsRev b b).reverse :=
      map_digitChar_inj [0] (toDigitsRev b b).reverse (by decide)
        (fun d hd => toDigitsRev_lt_ten b b d (List.mem_reverse.mp hd)) h
    have hdig : toDigitsRev b b = [0] := by
      have := congrArg List.reverse hrev
      simpa using this.symm
    have hb0 : ofDigitsRev (toDigitsRev b b) = 0 := by rw [hdig]; rfl
    rw [ofDigitsRev_toDigitsRev b b le_rfl] at hb0
    exact hb hb0
  · exfalso
    simp only [ha, if_false, hb, if_true] at h
    have h0 : ([0] : List Nat).map Nat.digitChar = ['0'] := rfl
    rw [← h0] at h
    have hrev : (toDigitsRev a a).reverse = ([0] : List Nat) :=
      map_digitChar_inj (toDigitsRev a a).reverse [0]
        (fun d hd => toDigitsRev_lt_ten a a d (List.mem_reverse.mp hd)) (by decide) h
    have hdig : toDigitsRev a a = [0] := by
      have := congrArg List.reverse hrev
      simpa using this
    have ha0 : ofDigitsRev (toDigitsRev a a) = 0 := by rw [hdig]; rfl
    rw [ofDigitsRev_toDigitsRev a a le_rfl] at ha0
    exact ha ha0
  · simp only [ha, if_false, hb, if_false] at h
    have hrev : (toDigitsRev a a).reverse = (toDigitsRev b b).reverse :=
      map_digitChar_inj _ _
        (fun d hd => toDigitsRev_lt_ten a a d (List.mem_reverse.mp hd))
        (fun d hd => toDigitsRev_lt_ten b b d (List.mem_reverse.mp hd)) h
    exact toDigitsRev_self_inj (List.reverse_injective hrev)

theorem strChars_injective : Function.Injective strChars := by
  intro a b h
  cases a with
  | ofNat m =>
      cases b with
      | ofNat k => exact congrArg Int.ofNat (natChars_injective h)
      | negSucc k =>
          exfalso
          have hm : ('-' : Char) ∈ natChars m := by
            rw [show strChars (Int.ofNat m) = natChars m from rfl] at h
            rw [h]
            exact List.mem_cons_self _ _
          exact natChars_ne_minus m '-' hm rfl
  | negSucc m =>
      cases b with
      | ofNat k =>
          exfalso
          have hm : ('-' : Char) ∈ natChars k := by
            rw [show strChars (Int.ofNat k) = natChars k from rfl] at h
            rw [← h]
            exact List.mem_cons_self _ _
          exact natChars_ne_minus k '-' hm rfl
      | negSucc k =>
          simp only [strChars, List.cons.injEq, true_and] at h
          have h2 := natChars_injective h
          have h3 : m = k := by omega
          rw [h3]

theorem str_injective : Function.Injective str := by
  intro a b h
  exact strChars_injective (congrArg String.data h)

/-! Supporting lemmas on the series loop, Python `min`/`max`, and the run. -/

theorem emitSeries_eq_filter_map (sim_hor : SimHorizons) :
    ∀ R : List Int, emitSeries sim_hor R =
      (R.filter fun x =>
        decide (x ∈ sim_hor.available_apparent_horizons)).map (scatterFor sim_hor) := by
  intro R
  induction R with
  | nil => rfl
  | cons a t ih =>
      by_cases h : a ∈ sim_hor.available_apparent_horizons
      · simp [emitSeries, List.filter_cons, h, ih]
      · simp [emitSeries, List.filter_cons, h, ih]

theorem scatterFor_mem_emitSeries (sim_hor : SimHorizons) {R : List Int} {ah : Int}
    (h1 : ah ∈ R) (h2 : ah ∈ sim_hor.available_apparent_horizons) :
    scatterFor sim_hor ah ∈ emitSeries sim_hor R := by
  rw [emitSeries_eq_filter_map]
  exact List.mem_map_of_mem _ (List.mem_filter.mpr ⟨h1, by simpa using h2⟩)

theorem emitSeries_skip_unavailable (sim_hor : SimHorizons) {ah : Int}
    (h2 : ah ∉ sim_hor.available_apparent_horizons) :
    ∀ R, emitSeries sim_hor R =
      emitSeries sim_hor (R.filter fun x => decide (x ≠ ah)) := by
  intro R
  induction R with
  | nil => rfl
  | cons a t ih =>
      by_cases ha : a = ah
      · subst ha
        rw [List.filter_cons_of_neg (by simp)]
        simp [emitSeries, h2, ih]
      · rw [List.filter_cons_of_pos (by simpa using ha)]
        by_cases hav : a ∈ sim_hor.available_apparent_horizons
        · simp [emitSeries, hav, ih]
        · simp [emitSeries, hav, ih]

theorem count_filter_eq {p : Int → Bool} {ah : Int} (hp : p ah = true) :
    ∀ l : List Int, (l.filter p).count ah = l.count ah := by
  intro l
  induction l with
  | nil => rfl
  | cons a t ih =>
      by_cases hpa : p a = true
      · rw [List.filter_cons_of_pos hpa]
        simp [List.count_cons, ih]
      · rw [List.filter_cons_of_neg (by simpa using hpa)]
        have hne : a ≠ ah := fun he => hpa (he ▸ hp)
        simp [List.count_cons, ih, hne, Ne.symm hne]

theorem foldl_min_le_init : ∀ (l : List Int) (a : Int), l.foldl min a ≤ a := by
  intro l
  induction l with
  | nil => intro a; exact le_rfl
  | cons b t ih => intro a; exact le_trans (ih (min a b)) (min_le_left a b)

theorem foldl_min_le_mem : ∀ (l : List Int) (a x : Int), x ∈ l → l.foldl min a ≤ x := by
  intro l
  induction l with
  | nil => intro a x hx; cases hx
  | cons b t ih =>
      intro a x hx
      rcases List.mem_cons.mp hx with h | h
      · subst h
        exact le_trans (foldl_min_le_init t (min a x)) (min_le_right a x)
      · exact ih (min a b) x h

theorem foldl_min_mem : ∀ (l : List Int) (a : Int),
    l.foldl min a = a ∨ l.foldl min a ∈ l := by
  intro l
  induction l with
  | nil => intro a; exact Or.inl rfl
  | cons b t ih =>
      intro a
      have hstep : (b :: t).foldl min a = t.foldl min (min a b) := rfl
      rcases ih (min a b) with h | h
      · rcases min_choice a b with hm | hm
        · left; rw [hstep, h, hm]
        · right; rw [hstep, h, hm]; exact List.mem_cons_self b t
      · right; rw [hstep]; exact List.mem_cons_of_mem b h

theorem foldl_max_init_le : ∀ (l : List Int) (a : Int), a ≤ l.foldl max a := by
  intro l
  induction l with
  | nil => intro a; exact le_rfl
  | cons b t ih => intro a; exact le_trans (le_max_left a b) (ih (max a b))

theorem foldl_max_mem_le : ∀ (l : List Int) (a x : Int), x ∈ l → x ≤ l.foldl max a := by
  intro l
  induction l with
  | nil => intro a x hx; cases hx
  | cons b t ih =>
      intro a x hx
      rcases List.mem_cons.mp hx with h | h
      · subst h
        exact le_trans (le_max_right a x) (foldl_max_init_le t (max a x))
      · exact ih (max a b) x h

theorem foldl_max_mem : ∀ (l : List Int) (a : Int),
    l.foldl max a = a ∨ l.foldl max a ∈ l := by
  intro l
  induction l with
  | nil => intro a; exact Or.inl rfl
  | cons b t ih =>
      intro a
      have hstep : (b :: t).foldl max a = t.foldl max (max a b) := rfl
      rcases ih (max a b) with h | h
      · rcases max_choice a b with hm | hm
        · left; rw [hstep, h, hm]
        · right; rw [hstep, h, hm]; exact List.mem_cons_self b t
      · right; rw [hstep]; exact List.mem_cons_of_mem b h

theorem pyMin_mem {l : List Int} {m : Int} (h : pyMin l = some m) : m ∈ l := by
  cases l with
  | nil => simp [pyMin] at h
  | cons x xs =>
      have hm : xs.foldl min x = m := by simpa [pyMin] using h
      rcases foldl_min_mem xs x with h2 | h2
      · rw [← hm, h2]; exact List.mem_cons_self x xs
      · rw [← hm]; exact List.mem_cons_of_mem x h2

theorem pyMin_le {l : List Int} {m : Int} (h : pyMin l = some m) :
    ∀ x ∈ l, m ≤ x := by
  intro y hy
  cases l with
  | nil => simp [pyMin] at h
  | cons x xs =>
      have hm : xs.foldl min x = m := by simpa [pyMin] using h
      rcases List.mem_cons.mp hy with h2 | h2
      · subst h2; rw [← hm]; exact foldl_min_le_init xs y
      · rw [← hm]; exact foldl_min_le_mem xs x y h2

theorem pyMax_mem {l : List Int} {m : Int} (h : pyMax l = some m) : m ∈ l := by
  cases l with
  | nil => simp [pyMax] at h
  | cons x xs =>
      have hm : xs.foldl max x = m := by simpa [pyMax] using h
      rcases foldl_max_mem xs x with h2 | h2
      · rw [← hm, h2]; exact List.mem_cons_self x xs
      · rw [← hm]; exact List.mem_cons_of_mem x h2

theorem pyMax_le {l : List Int} {m : Int} (h : pyMax l = some m) :
    ∀ x ∈ l, x ≤ m := by
  intro y hy
  cases l with
  | nil => simp [pyMax] at h
  | cons x xs =>
      have hm : xs.foldl max x = m := by simpa [pyMax] using h
      rcases List.mem_cons.mp hy with h2 | h2
      · subst h2; rw [← hm]; exact foldl_max_init_le xs y
      · rw [← hm]; exact foldl_max_mem_le xs x y h2

theorem run_nil (args : Args) (sim_hor : SimHorizons) (hl : args.horizons = []) :
    run args sim_hor = none := by
  unfold run
  rw [hl]
  rfl

theorem run_cons (args : Args) (sim_hor : SimHorizons) (x : Int) (xs : List Int)
    (hl : args.horizons = x :: xs) :
    run args sim_hor =
      some { outdir := args.outdir, name := figname args, fig_ext := args.fig_ext,
             figure := { series := emitSeries sim_hor args.horizons,
                         xlabel := "Time", ylabel := "Apparent horizon",
                         ylim := (xs.foldl min x - 1, xs.foldl max x + 1),
                         yticks := args.horizons } } := by
  unfold run
  rw [hl]
  rfl

theorem run_isSome {args : Args} (sim_hor : SimHorizons) (h : args.horizons ≠ []) :
    (run args sim_hor).isSome = true := by
  cases hl : args.horizons with
  | nil => exact absurd hl h
  | cons x xs => rw [run_cons args sim_hor x xs hl]; rfl

theorem loopLogs_debug (sim_hor : SimHorizons) :
    ∀ l, ∀ r ∈ loopLogs sim_hor l, r.level = LogLevel.debug := by
  intro l
  induction l with
  | nil => intro r hr; cases hr
  | cons a t ih =>
      intro r hr
      unfold loopLogs at hr
      by_cases h : a ∈ sim_hor.available_apparent_horizons
      · rw [if_pos h] at hr
        rcases List.mem_cons.mp hr with h2 | h2
        · rw [h2]
        · exact ih r h2
      · rw [if_neg h] at hr
        exact ih r hr

theorem emittedLogs_all_debug (args : Args) (sim_hor : SimHorizons) :
    ((emittedLogs args sim_hor).all fun r => decide (r.level = LogLevel.debug)) = true := by
  rw [List.all_eq_true]
  intro r hr
  simp only [decide_eq_true_eq]
  unfold emittedLogs at hr
  by_cases hv : args.verbose = true
  · rw [if_pos hv] at hr
    simp only [List.mem_cons, List.mem_append, List.not_mem_nil, or_false] at hr
    rcases hr with h | h | h | h | h | h | h | h
    · rw [h]
    · rw [h]
    · rw [h]
    · exact loopLogs_debug sim_hor args.horizons r h
    · rw [h]
    · rw [h]
    · rw [h]
    · rw [h]
  · rw [if_neg hv] at hr
    cases hr

/-! The claims. -/

/-- C1: for every available-horizon set and every requested horizon list, the
per-horizon loop emits exactly one scatter series for each occurrence of a
requested horizon that is available — the emitted list is the requested list
restricted to the available horizons, mapped through the scatter call — and
emits no series for any requested horizon that is not available. -/
theorem c1_series_exactly_requested_available (sim_hor : SimHorizons) (R : List Int) :
    emitSeries sim_hor R =
      (R.filter fun x => decide (x ∈ sim_hor.available_apparent_horizons)).map
        (scatterFor sim_hor) ∧
    (emitSeries sim_hor R).length =
      (R.filter fun x => decide (x ∈ sim_hor.available_apparent_horizons)).length := by
  refine ⟨emitSeries_eq_filter_map sim_hor R, ?_⟩
  rw [emitSeries_eq_filter_map sim_hor R, List.length_map]

/-- C2: for every requested horizon list, whenever the run writes a file its
figure's y-axis tick marks equal exactly the requested list, independently of
which horizons the simulation makes available or of any detection data. -/
theorem c2_yticks_eq_requested (args : Args) (sim_hor : SimHorizons) (out : SavedFile)
    (h : run args sim_hor = some out) : out.figure.yticks = args.horizons := by
  cases hl : args.horizons with
  | nil => rw [run_nil args sim_hor hl] at h; cases h
  | cons x xs =>
      rw [run_cons args sim_hor x xs hl] at h
      have h2 := Option.some.inj h
      rw [← h2]
      exact hl

/-- Witness for C2: requested `[2, 5]` against availability `{1, 2, 3}`. -/
theorem c2_yticks_witness : out0.figure.yticks = args0.horizons :=
  c2_yticks_eq_requested args0 sim0 out0 (by decide)

/-- C3: for every non-empty requested horizon list, the written figure's
y-limits equal (min of the requested list minus 1, max of the requested list
plus 1); `pyMin`/`pyMax` model Python `min`/`max`, and `pyMin_mem`, `pyMin_le`,
`pyMax_mem`, `pyMax_le` above establish that they return the least and
greatest requested element. -/
theorem c3_ylim_min_max (args : Args) (sim_hor : SimHorizons) (out : SavedFile)
    (mn mx : Int) (h : run args sim_hor = some out)
    (hmn : pyMin args.horizons = some mn) (hmx : pyMax args.horizons = some mx) :
    out.figure.ylim = (mn - 1, mx + 1) ∧ mn ∈ args.horizons ∧ mx ∈ args.horizons := by
  refine ⟨?_, pyMin_mem hmn, pyMax_mem hmx⟩
  cases hl : args.horizons with
  | nil => rw [run_nil args sim_hor hl] at h; cases h
  | cons x xs =>
      rw [run_cons args sim_hor x xs hl] at h
      have h2 := Option.some.inj h
      rw [hl] at hmn hmx
      have hmn2 : xs.foldl min x = mn := by simpa [pyMin] using hmn
      have hmx2 : xs.foldl max x = mx := by simpa [pyMax] using hmx
      rw [← h2]
      simp [hmn2, hmx2]

/-- Witness for C3: requested `[2, 5]`, so the y-limits are `(1, 6)`. -/
theorem c3_ylim_witness :
    out0.figure.ylim = (2 - 1, 5 + 1) ∧ (2 : Int) ∈ args0.horizons ∧
      (5 : Int) ∈ args0.horizons :=
  c3_ylim_min_max args0 sim0 out0 2 5 (by decide) (by decide) (by decide)

/-- C4: when no figure-name override is given, the name of the written file is
the string `"ah_"`, followed by the underscore-joined decimal representations
of the requested horizons in request order, followed by `"_found"`. -/
theorem c4_default_figname (args : Args) (sim_hor : SimHorizons) (out : SavedFile)
    (h : run args sim_hor = some out) (hov : args.figname = none) :
    out.name = "ah_" ++ String.intercalate "_" (args.horizons.map str) ++ "_found" := by
  cases hl : args.horizons with
  | nil => rw [run_nil args sim_hor hl] at h; cases h
  | cons x xs =>
      rw [run_cons args sim_hor x xs hl] at h
      have h2 := Option.some.inj h
      rw [← h2]
      show figname args = _
      unfold figname get_figname
      rw [hov, hl]
      rfl

/-- Witness for C4: requested `[2, 5]` yields the name `"ah_2_5_found"`. -/
theorem c4_default_figname_witness :
    out0.name = "ah_" ++ String.intercalate "_" (args0.horizons.map str) ++ "_found" :=
  c4_default_figname args0 sim0 out0 (by decide) rfl

/-- C5: for every requested available horizon `ah`, the scatter series emitted
for `ah` is in the emitted series list and has x-values exactly the detection
time series, y-values the constant list `[ah] * len(time_found)` (one point
per time value, every y-coordinate equal to `ah`), marker `"o"`, and marker
size fixed at `0.1 = 1/10`. -/
theorem c5_series_points (sim_hor : SimHorizons) (R : List Int) (ah : Int)
    (h1 : ah ∈ R) (h2 : ah ∈ sim_hor.available_apparent_horizons) :
    scatterFor sim_hor ah ∈ emitSeries sim_hor R ∧
    (scatterFor sim_hor ah).x = sim_hor.time_found ah ∧
    (scatterFor sim_hor ah).y = List.replicate (sim_hor.time_found ah).length ah ∧
    (scatterFor sim_hor ah).y.length = (sim_hor.time_found ah).length ∧
    (scatterFor sim_hor ah).marker = "o" ∧
    (scatterFor sim_hor ah).s = markerSize ∧
    markerSize.num = 1 ∧ markerSize.den = 10 := by
  refine ⟨scatterFor_mem_emitSeries sim_hor h1 h2, rfl, rfl, ?_, rfl, rfl, rfl, rfl⟩
  simp [scatterFor]

/-- Witness for C5: horizon 2 requested in `[2, 5]` and available in `sim0`. -/
theorem c5_series_points_witness :
    scatterFor sim0 2 ∈ emitSeries sim0 [2, 5] ∧
    (scatterFor sim0 2).x = sim0.time_found 2 ∧
    (scatterFor sim0 2).y = List.replicate (sim0.time_found 2).length 2 ∧
    (scatterFor sim0 2).y.length = (sim0.time_found 2).length ∧
    (scatterFor sim0 2).marker = "o" ∧
    (scatterFor sim0 2).s = markerSize ∧
    markerSize.num = 1 ∧ markerSize.den = 10 :=
  c5_series_points sim0 [2, 5] 2 (by decide) (by decide)

/-- C6: requesting a horizon that is not available is a silent no-op for that
horizon: the run still completes and writes the output file, the emitted
series are those of the request with that horizon removed, and every log
record the script can surface is at debug level (no warning or error). -/
theorem c6_silent_skip (args : Args) (sim_hor : SimHorizons) (ah : Int)
    (h1 : ah ∈ args.horizons) (h2 : ah ∉ sim_hor.available_apparent_horizons) :
    (run args sim_hor).isSome = true ∧
    emitSeries sim_hor args.horizons =
      emitSeries sim_hor (args.horizons.filter fun x => decide (x ≠ ah)) ∧
    ((emittedLogs args sim_hor).all fun r => decide (r.level = LogLevel.debug)) = true := by
  refine ⟨run_isSome sim_hor ?_,
    emitSeries_skip_unavailable sim_hor h2 args.horizons,
    emittedLogs_all_debug args sim_hor⟩
  intro he
  rw [he] at h1
  cases h1

/-- Witness for C6: horizon 5 requested in `[2, 5]` but not available. -/
theorem c6_silent_skip_witness :
    (run args0 sim0).isSome = true ∧
    emitSeries sim0 args0.horizons =
      emitSeries sim0 (args0.horizons.filter fun x => decide (x ≠ 5)) ∧
    ((emittedLogs args0 sim0).all fun r => decide (r.level = LogLevel.debug)) = true :=
  c6_silent_skip args0 sim0 5 (by decide) (by decide)

/-- C7: a requested available horizon whose detection time series is empty
yields a scatter series with zero points (empty x- and y-lists) among the
emitted series, and the run still completes without an error. -/
theorem c7_empty_series (args : Args) (sim_hor : SimHorizons) (ah : Int)
    (h1 : ah ∈ args.horizons) (h2 : ah ∈ sim_hor.available_apparent_horizons)
    (h3 : sim_hor.time_found ah = []) :
    scatterFor sim_hor ah ∈ emitSeries sim_hor args.horizons ∧
    (scatterFor sim_hor ah).x = [] ∧
    (scatterFor sim_hor ah).y = [] ∧
    (run args sim_hor).isSome = true := by
  refine ⟨scatterFor_mem_emitSeries sim_hor h1 h2, ?_, ?_, run_isSome sim_hor ?_⟩
  · simp [scatterFor, h3]
  · simp [scatterFor, h3]
  · intro he
    rw [he] at h1
    cases h1

/-- Witness for C7: horizon 1 is available in `sim0` but never detected. -/
theorem c7_empty_series_witness :
    scatterFor sim0 1 ∈ emitSeries sim0 args1.horizons ∧
    (scatterFor sim0 1).x = [] ∧
    (scatterFor sim0 1).y = [] ∧
    (run args1 sim0).isSome = true :=
  c7_empty_series args1 sim0 1 (by decide) (by decide) (by decide)

/-- C8: the run is a deterministic function of the CLI arguments and the
simulation-data provider: two runs with identical inputs produce identical
output files and identical log traces. -/
theorem c8_deterministic (a1 a2 : Args) (s1 s2 : SimHorizons)
    (h1 : a1 = a2) (h2 : s1 = s2) :
    run a1 s1 = run a2 s2 ∧ emittedLogs a1 s1 = emittedLogs a2 s2 := by
  subst h1
  subst h2
  exact ⟨rfl, rfl⟩

/-- Witness for C8 at the concrete input `args0`, `sim0`. -/
theorem c8_deterministic_witness :
    run args0 sim0 = run args0 sim0 ∧ emittedLogs args0 sim0 = emittedLogs args0 sim0 :=
  c8_deterministic args0 args0 sim0 sim0 rfl rfl

/-- C9: the requested horizons are an ordered list, not a set: an available
horizon occurring k times in the request occupies k positions of the filtered
request (each mapped to its own identical scatter series by the loop), occurs
k times in the y-axis tick list of the written figure, and its decimal
representation occurs k times among the joined components of the default
figure name. -/
theorem c9_duplicates_kept (sim_hor : SimHorizons) (args : Args) (out : SavedFile)
    (ah : Int) (hav : ah ∈ sim_hor.available_apparent_horizons)
    (hout : run args sim_hor = some out) :
    (args.horizons.filter fun x =>
        decide (x ∈ sim_hor.available_apparent_horizons)).count ah =
      args.horizons.count ah ∧
    emitSeries sim_hor args.horizons =
      (args.horizons.filter fun x =>
        decide (x ∈ sim_hor.available_apparent_horizons)).map (scatterFor sim_hor) ∧
    out.figure.yticks.count ah = args.horizons.count ah ∧
    (args.horizons.map str).count (str ah) = args.horizons.count ah := by
  refine ⟨count_filter_eq (by simpa using hav) args.horizons,
    emitSeries_eq_filter_map sim_hor args.horizons, ?_, ?_⟩
  · cases hl : args.horizons with
    | nil => rw [run_nil args sim_hor hl] at hout; cases hout
    | cons x xs =>
        rw [run_cons args sim_hor x xs hl] at hout
        have h2 := Option.some.inj hout
        rw [← h2]
        show List.count ah args.horizons = List.count ah (x :: xs)
        rw [hl]
  · exact List.count_map_of_injective args.horizons str str_injective ah

/-- Witness for C9: horizon 2 requested twice in `[2, 5, 2]`. -/
theorem c9_duplicates_witness :
    (args2.horizons.filter fun x =>
        decide (x ∈ sim0.available_apparent_horizons)).count 2 =
      args2.horizons.count 2 ∧
    emitSeries sim0 args2.horizons =
      (args2.horizons.filter fun x =>
        decide (x ∈ sim0.available_apparent_horizons)).map (scatterFor sim0) ∧
    out2.figure.yticks.count 2 = args2.horizons.count 2 ∧
    (args2.horizons.map str).count (str 2) = args2.horizons.count 2 :=
  c9_duplicates_kept sim0 args2 out2 2 (by decide) (by decide)

/-- C10: the figure name is computed from the CLI arguments alone, before the
simulation directory is opened: for any two providers the run produces the
same figure name, namely the default or overridden name computed by
`figname`, whenever the horizon list is non-empty. -/
theorem c10_figname_from_args_alone (args : Args) (s1 s2 : SimHorizons) :
    (run args s1).map SavedFile.name = (run args s2).map SavedFile.name ∧
    (run args s1).map SavedFile.name =
      (if args.horizons = [] then none else some (figname args)) := by
  cases hl : args.horizons with
  | nil =>
      rw [run_nil args s1 hl, run_nil args s2 hl]
      simp [hl]
  | cons x xs =>
      rw [run_cons args s1 x xs hl, run_cons args s2 x xs hl]
      simp [hl]

end PlotAhFound
